import Mathlib

/-!
# Verification of the Last.fm offline-backup recommender

Shallow embedding of `src/lastfm_recommender.py`: the Normalizer
(`process_scrobbles`), the Aggregator/Scorer (`calculate_scores`), the Ranker
(stable descending sort + top-N truncation) and the presentation decisions of
`main`.  Python floats are idealised as rationals; Python dicts (which iterate
in insertion order) are modelled as total functions together with an explicit
insertion-order key list; the aggregation loop becomes a left fold over an
aggregation state.
-/

namespace LastfmRecommender

/-- A normalized listen record, as built by `process_scrobbles`:
`{"song": ..., "artist": ..., "album": ..., "day": ...}`. -/
structure ListenEvent where
  song : String
  artist : String
  album : String
  day : String
  deriving DecidableEq, Repr

/-- `song_key = (listen["artist"], listen["song"])` in the source. -/
abbrev TrackKey := String × String

/-- `album_key = (listen["artist"], listen["album"])` in the source. -/
abbrev AlbumKey := String × String

/-- The track identity used for grouping. -/
def trackKey (l : ListenEvent) : TrackKey := (l.artist, l.song)

/-- The album identity used for affinity counting. -/
def albumKey (l : ListenEvent) : AlbumKey := (l.artist, l.album)

/-- The scoring weight configuration (the `WEIGHTS` dict of the source). -/
structure Weights where
  FREQUENCY : ℚ
  CONSISTENCY : ℚ
  ARTIST_AFFINITY : ℚ
  ALBUM_AFFINITY : ℚ
  deriving DecidableEq, Repr

/-- The default weights of the source: `{1.0, 1.5, 0.5, 0.3}`. -/
def WEIGHTS : Weights :=
  { FREQUENCY := 1, CONSISTENCY := 3/2, ARTIST_AFFINITY := 1/2, ALBUM_AFFINITY := 3/10 }

/-- `song_play_days[song_key].add(day)`: a Python `set` modelled as a
duplicate-free list (only its size is ever consumed). -/
def addDay (ds : List String) (d : String) : List String :=
  if d ∈ ds then ds else d :: ds

/-- Append a key to an insertion-ordered key list unless already present:
the key-creation behaviour of a Python dict. -/
def insertKey {α : Type} [DecidableEq α] (ks : List α) (k : α) : List α :=
  if k ∈ ks then ks else ks ++ [k]

/-- The four defaultdicts built by the aggregation loop of `calculate_scores`,
plus the insertion order of `song_play_counts` (Python dicts iterate in
insertion order, which the final `.items()` loop observes). -/
structure AggState where
  songKeysInOrder : List TrackKey
  songPlayCounts : TrackKey → ℕ
  songPlayDays : TrackKey → List String
  artistTotalPlays : String → ℕ
  albumTotalPlays : AlbumKey → ℕ

/-- Empty defaultdicts. -/
def initState : AggState :=
  { songKeysInOrder := []
    songPlayCounts := fun _ => 0
    songPlayDays := fun _ => []
    artistTotalPlays := fun _ => 0
    albumTotalPlays := fun _ => 0 }

/-- One iteration of the `for listen in listens` aggregation loop. -/
def stepListen (st : AggState) (l : ListenEvent) : AggState :=
  { songKeysInOrder := insertKey st.songKeysInOrder (trackKey l)
    songPlayCounts := fun k =>
      if k = trackKey l then st.songPlayCounts k + 1 else st.songPlayCounts k
    songPlayDays := fun k =>
      if k = trackKey l then addDay (st.songPlayDays k) l.day else st.songPlayDays k
    artistTotalPlays := fun a =>
      if a = l.artist then st.artistTotalPlays a + 1 else st.artistTotalPlays a
    albumTotalPlays := fun ak =>
      if ak = albumKey l then st.albumTotalPlays ak + 1 else st.albumTotalPlays ak }

/-- The whole aggregation loop. -/
def aggregate (listens : List ListenEvent) : AggState :=
  listens.foldl stepListen initState

/-- `next((l["album"] for l in listens if (l["artist"], l["song"]) == song_key), None)`:
the album of the first listen of the track, or `None`. -/
def representativeAlbum (listens : List ListenEvent) (k : TrackKey) : Option String :=
  (listens.find? (fun l => trackKey l = k)).map (fun l => l.album)

/-- `album_total_plays.get(album_key, 0)` for the representative album key
(`0` when the representative album is `None`, since `(artist, None)` is never
a dict key). -/
def albumAffinityUsed (listens : List ListenEvent) (k : TrackKey) : ℕ :=
  match representativeAlbum listens k with
  | none => 0
  | some alb => (aggregate listens).albumTotalPlays (k.1, alb)

/-- Floor of a rational, written with `Int.fdiv` so that it evaluates by
kernel reduction. -/
def ratFloor (q : ℚ) : ℤ := Int.fdiv q.num q.den

/-- Round a rational to the nearest integer, ties to even — the rounding mode
of Python's `round`. -/
def roundHalfEven (q : ℚ) : ℤ :=
  let n := ratFloor q
  let r := q - (n : ℚ)
  if r < 1/2 then n
  else if 1/2 < r then n + 1
  else if n % 2 = 0 then n else n + 1

/-- `round(score, 2)`: round to two decimal places. -/
def round2 (q : ℚ) : ℚ := (roundHalfEven (q * 100) : ℚ) / 100

/-- One output entry: `{"artist": ..., "song": ..., "score": ...}`. -/
structure ScoredTrack where
  artist : String
  song : String
  score : ℚ
  deriving DecidableEq, Repr

/-- The `(artist, song)` identity of an output entry. -/
def keyOf (t : ScoredTrack) : TrackKey := (t.artist, t.song)

/-- The body of the `for song_key, frequency in song_play_counts.items()` loop:
build one scored entry from the aggregated statistics. -/
def scoredOf (listens : List ListenEvent) (w : Weights) (k : TrackKey) : ScoredTrack :=
  { artist := k.1
    song := k.2
    score := round2
      (((aggregate listens).songPlayCounts k : ℚ) * w.FREQUENCY
        + (((aggregate listens).songPlayDays k).length : ℚ) * w.CONSISTENCY
        + ((aggregate listens).artistTotalPlays k.1 : ℚ) * w.ARTIST_AFFINITY
        + (albumAffinityUsed listens k : ℚ) * w.ALBUM_AFFINITY) }

/-- `song_scores` before sorting, in dict-iteration (= insertion) order. -/
def songScores (listens : List ListenEvent) (w : Weights) : List ScoredTrack :=
  (aggregate listens).songKeysInOrder.map (scoredOf listens w)

/-- Insert into a descending-by-score list, after all entries of score ≥ its
own: the insertion step of a stable descending sort. -/
def insertScored (x : ScoredTrack) : List ScoredTrack → List ScoredTrack
  | [] => [x]
  | y :: ys => if y.score < x.score then x :: y :: ys else y :: insertScored x ys

/-- `sorted(song_scores, key=lambda x: x["score"], reverse=True)`: Python's
sort is stable, and any stable descending sort computes the same list; this
one inserts elements left to right. -/
def sortByScoreDesc (l : List ScoredTrack) : List ScoredTrack :=
  l.foldl (fun acc x => insertScored x acc) []

/-- `calculate_scores(listens, weights)`. -/
def calculate_scores (listens : List ListenEvent) (w : Weights) : List ScoredTrack :=
  sortByScoreDesc (songScores listens w)

/-- `ranked_songs[:NUM_SUGGESTIONS]`: top-N truncation. -/
def topN (ranked : List ScoredTrack) (n : ℕ) : List ScoredTrack :=
  ranked.take n

/-- Keys of the input events with later duplicates removed — the declarative
"distinct `(artist, song)` pairs in the input" of the spec. -/
def distinctTrackKeys (listens : List ListenEvent) : ℕ :=
  ((listens.map trackKey).dedup).length

/-- Spec formula: `frequency` = exact count of input events sharing the
TrackKey. -/
def frequency (listens : List ListenEvent) (k : TrackKey) : ℕ :=
  listens.countP (fun l => trackKey l = k)

/-- Spec formula: `consistency` = number of distinct day values among the
events of the track. -/
def consistency (listens : List ListenEvent) (k : TrackKey) : ℕ :=
  (((listens.filter (fun l => trackKey l = k)).map (fun l => l.day)).dedup).length

/-- Spec formula: `artistTotalPlays[artist]` = total listen count for the
artist across all tracks. -/
def artistPlays (listens : List ListenEvent) (a : String) : ℕ :=
  listens.countP (fun l => l.artist = a)

/-- Spec formula: `albumTotalPlays[albumKey]` = total listen count for the
album key across all tracks. -/
def albumPlays (listens : List ListenEvent) (ak : AlbumKey) : ℕ :=
  listens.countP (fun l => albumKey l = ak)

/-- First occurrences of a list, in order: the declarative description of
Python-dict key insertion order. -/
def firstOccur {α : Type} [DecidableEq α] : List α → List α
  | [] => []
  | x :: xs => x :: (firstOccur xs).filter (fun y => y ≠ x)

/-- One raw track record from the API, with the fields `process_scrobbles`
reads; a `none` field models a missing key (Python `KeyError`). -/
structure RawTrack where
  nowplaying : Option String
  name : Option String
  artistText : Option String
  albumText : Option String
  dateUts : Option ℕ
  deriving DecidableEq, Repr

/-- The per-record body of `process_scrobbles`: `none` when the record is
skipped ("now playing", a missing field, or an empty required string).
`dayOf` abstracts `datetime.fromtimestamp(uts).strftime("%Y-%m-%d")`, which
depends on the local timezone of the process. -/
def processOne (dayOf : ℕ → String) (t : RawTrack) : Option ListenEvent :=
  if t.nowplaying = some "true" then none
  else
    match t.name, t.artistText, t.albumText, t.dateUts with
    | some s, some a, some alb, some uts =>
        if s ≠ "" ∧ a ≠ "" ∧ alb ≠ "" then
          some { song := s, artist := a, album := alb, day := dayOf uts }
        else none
    | _, _, _, _ => none

/-- `process_scrobbles(tracks)`. -/
def process_scrobbles (dayOf : ℕ → String) (tracks : List RawTrack) : List ListenEvent :=
  tracks.filterMap (processOne dayOf)

/-- `"No listening history found for the specified period."` -/
def noHistoryMessage : String := "No listening history found for the specified period."

/-- What `main` prints after the `--- Top N ... ---` header: either the single
no-history message, or one formatted line per entry of `ranked[:n]` with ranks
starting at 1; `fmt` abstracts the f-string
`f"{i:2}. \x7bsong\x7d by ... (Score: ...)"`. -/
def recommendationLines (fmt : ℕ → ScoredTrack → String) (ranked : List ScoredTrack)
    (n : ℕ) : List String :=
  if ranked.isEmpty then [noHistoryMessage]
  else ((topN ranked n).enum).map (fun p => fmt (p.1 + 1) p.2)

/-- First line printed when credentials are missing. -/
def configErrorLine1 : String :=
  "Error: LASTFM_API_KEY and LASTFM_USERNAME environment variables must be set."

/-- Second line printed when credentials are missing. -/
def configErrorLine2 : String :=
  "Please follow the setup instructions in the script's docstring."

/-- Python truthiness of an `os.getenv` result: falsy iff unset or empty. -/
def missingCred (v : Option String) : Bool :=
  match v with
  | none => true
  | some s => s == ""

/-- The observable outcome of one run of `main`: the lines printed for the
recommendation section, whether any network fetch was attempted, and the
process exit status. -/
structure RunResult where
  output : List String
  fetchAttempted : Bool
  exitCode : ℕ
  deriving DecidableEq, Repr

/-- `main()` on a run whose fetch (when reached) succeeds with `raw`:
the credentials check happens before any network activity, and the script
always returns normally (exit status 0) — it never calls `sys.exit`. -/
def mainRun (apiKey username : Option String) (dayOf : ℕ → String)
    (fmt : ℕ → ScoredTrack → String) (raw : List RawTrack) (w : Weights)
    (n : ℕ) : RunResult :=
  if missingCred apiKey || missingCred username then
    { output := [configErrorLine1, configErrorLine2], fetchAttempted := false, exitCode := 0 }
  else
    { output := recommendationLines fmt (calculate_scores (process_scrobbles dayOf raw) w) n
      fetchAttempted := true
      exitCode := 0 }

/-- The worked example of the spec: 3 plays of ("Artist A","Song X") on 2
distinct days, all from album "Alb1". -/
def exampleListens : List ListenEvent :=
  [ { song := "Song X", artist := "Artist A", album := "Alb1", day := "2024-01-01" }
  , { song := "Song X", artist := "Artist A", album := "Alb1", day := "2024-01-01" }
  , { song := "Song X", artist := "Artist A", album := "Alb1", day := "2024-01-02" } ]

/-- The single scored entry the example yields: score
3·1.0 + 2·1.5 + 3·0.5 + 3·0.3 = 8.4. -/
def exampleTrack : ScoredTrack :=
  { artist := "Artist A", song := "Song X", score := 42/5 }

/-- Two plays of the example track on two distinct days. -/
def exampleListensDistinct : List ListenEvent :=
  [ { song := "Song X", artist := "Artist A", album := "Alb1", day := "2024-01-01" }
  , { song := "Song X", artist := "Artist A", album := "Alb1", day := "2024-01-02" } ]

/-- A complete raw record. -/
def goodRaw : RawTrack :=
  { nowplaying := none, name := some "Song X", artistText := some "Artist A"
    albumText := some "Alb1", dateUts := some 1704067200 }

/-- A raw record lacking an `album` field (the spec's dropped-record example). -/
def badRaw : RawTrack :=
  { nowplaying := none, name := some "Song Y", artistText := some "Artist B"
    albumText := none, dateUts := some 1704067200 }

/-- A raw record with all fields present but an empty album string. -/
def emptyAlbumRaw : RawTrack :=
  { nowplaying := none, name := some "Song Z", artistText := some "Artist C"
    albumText := some "", dateUts := some 1704067200 }

/-! ## Lemmas about the aggregation fold -/

theorem songPlayCounts_foldl (l : List ListenEvent) (st : AggState) (k : TrackKey) :
    (l.foldl stepListen st).songPlayCounts k
      = st.songPlayCounts k + l.countP (fun e => trackKey e = k) := by
  induction l generalizing st with
  | nil => simp
  | cons e l ih =>
      rw [List.foldl_cons, ih, List.countP_cons]
      by_cases h : k = trackKey e
      · simp [stepListen, h]
        omega
      · simp [stepListen, h]
        exact fun hh => h hh.symm

theorem artistTotalPlays_foldl (l : List ListenEvent) (st : AggState) (a : String) :
    (l.foldl stepListen st).artistTotalPlays a
      = st.artistTotalPlays a + l.countP (fun e => e.artist = a) := by
  induction l generalizing st with
  | nil => simp
  | cons e l ih =>
      rw [List.foldl_cons, ih, List.countP_cons]
      by_cases h : a = e.artist
      · simp [stepListen, h]
        omega
      · simp [stepListen, h]
        exact fun hh => h hh.symm

theorem albumTotalPlays_foldl (l : List ListenEvent) (st : AggState) (ak : AlbumKey) :
    (l.foldl stepListen st).albumTotalPlays ak
      = st.albumTotalPlays ak + l.countP (fun e => albumKey e = ak) := by
  induction l generalizing st with
  | nil => simp
  | cons e l ih =>
      rw [List.foldl_cons, ih, List.countP_cons]
      by_cases h : ak = albumKey e
      · simp [stepListen, h]
        omega
      · simp [stepListen, h]
        exact fun hh => h hh.symm

theorem mem_addDay {ds : List String} {d' d : String} :
    d ∈ addDay ds d' ↔ d = d' ∨ d ∈ ds := by
  unfold addDay
  split
  · next h =>
      constructor
      · exact fun hd => Or.inr hd
      · rintro (rfl | hd)
        · exact h
        · exact hd
  · simp [List.mem_cons]

theorem nodup_addDay {ds : List String} {d' : String} (h : ds.Nodup) :
    (addDay ds d').Nodup := by
  unfold addDay
  split
  · exact h
  · next hd => exact List.Nodup.cons hd h

theorem mem_songPlayDays_foldl (l : List ListenEvent) (st : AggState) (k : TrackKey)
    (d : String) :
    d ∈ (l.foldl stepListen st).songPlayDays k
      ↔ d ∈ st.songPlayDays k ∨ ∃ e ∈ l, trackKey e = k ∧ e.day = d := by
  induction l generalizing st with
  | nil => simp
  | cons e l ih =>
      rw [List.foldl_cons, ih]
      by_cases h : k = trackKey e
      · simp only [stepListen, if_pos h, mem_addDay, List.mem_cons]
        constructor
        · rintro ((rfl | hd) | he)
          · exact Or.inr ⟨e, Or.inl rfl, h.symm, rfl⟩
          · exact Or.inl hd
          · obtain ⟨e', he', hk, hd⟩ := he
            exact Or.inr ⟨e', Or.inr he', hk, hd⟩
        · rintro (hd | ⟨e', (rfl | he'), hk, hd⟩)
          · exact Or.inl (Or.inr hd)
          · exact Or.inl (Or.inl hd.symm)
          · exact Or.inr ⟨e', he', hk, hd⟩
      · simp only [stepListen, if_neg h, List.mem_cons]
        constructor
        · rintro (hd | he)
          · exact Or.inl hd
          · obtain ⟨e', he', hk, hd⟩ := he
            exact Or.inr ⟨e', Or.inr he', hk, hd⟩
        · rintro (hd | ⟨e', (rfl | he'), hk, hd⟩)
          · exact Or.inl hd
          · exact absurd hk.symm h
          · exact Or.inr ⟨e', he', hk, hd⟩

theorem nodup_songPlayDays_foldl (l : List ListenEvent) (st : AggState) (k : TrackKey)
    (h : (st.songPlayDays k).Nodup) :
    ((l.foldl stepListen st).songPlayDays k).Nodup := by
  induction l generalizing st with
  | nil => exact h
  | cons e l ih =>
      rw [List.foldl_cons]
      apply ih
      by_cases hk : k = trackKey e
      · simpa [stepListen, hk] using nodup_addDay h
      · simpa [stepListen, hk] using h

theorem songKeysInOrder_foldl (l : List ListenEvent) (st : AggState) :
    (l.foldl stepListen st).songKeysInOrder
      = (l.map trackKey).foldl insertKey st.songKeysInOrder := by
  induction l generalizing st with
  | nil => rfl
  | cons e l ih => rw [List.foldl_cons, ih]; rfl

/-! ## Lemmas about first-occurrence order -/

theorem mem_firstOccur {α : Type} [DecidableEq α] {l : List α} {a : α} :
    a ∈ firstOccur l ↔ a ∈ l := by
  induction l with
  | nil => simp [firstOccur]
  | cons x xs ih =>
      by_cases h : a = x
      · simp [firstOccur, h]
      · simp [firstOccur, h, List.mem_filter, ih]

theorem nodup_firstOccur {α : Type} [DecidableEq α] (l : List α) :
    (firstOccur l).Nodup := by
  induction l with
  | nil => simp [firstOccur]
  | cons x xs ih =>
      refine List.Nodup.cons ?_ (ih.filter _)
      intro hx
      have h2 := (List.mem_filter.mp hx).2
      simp at h2

theorem foldl_insertKey_eq {α : Type} [DecidableEq α] (l : List α) (ks : List α) :
    l.foldl insertKey ks = ks ++ (firstOccur l).filter (fun y => y ∉ ks) := by
  induction l generalizing ks with
  | nil => simp [firstOccur]
  | cons x l ih =>
      rw [List.foldl_cons, ih]
      by_cases hx : x ∈ ks
      · rw [insertKey, if_pos hx]
        simp only [firstOccur, List.filter_cons, List.filter_filter]
        rw [if_neg (by simpa using hx)]
        congr 1
        apply List.filter_congr
        intro y _
        by_cases hy : y ∈ ks
        · simp [hy]
        · simp [hy]
          exact fun h => hy (h ▸ hx)
      · rw [insertKey, if_neg hx]
        simp only [firstOccur, List.filter_cons, List.filter_filter]
        rw [if_pos (by simpa using hx)]
        rw [List.append_assoc, List.singleton_append]
        congr 1
        congr 1
        apply List.filter_congr
        intro y _
        by_cases hy : y ∈ ks <;> by_cases hyx : y = x <;>
          simp [hy, hyx, List.mem_append]

theorem songKeysInOrder_eq_firstOccur (listens : List ListenEvent) :
    (aggregate listens).songKeysInOrder = firstOccur (listens.map trackKey) := by
  rw [aggregate, songKeysInOrder_foldl, foldl_insertKey_eq]
  simp [initState]

/-! ## Lemmas about the stable descending sort -/

theorem perm_insertScored (x : ScoredTrack) (l : List ScoredTrack) :
    List.Perm (insertScored x l) (x :: l) := by
  induction l with
  | nil => rfl
  | cons y ys ih =>
      rw [insertScored]
      split
      · rfl
      · exact (ih.cons y).trans (List.Perm.swap x y ys)

theorem sortedDesc_insertScored {x : ScoredTrack} {l : List ScoredTrack}
    (h : l.Pairwise (fun a b => b.score ≤ a.score)) : (insertScored x l).Pairwise (fun a b => b.score ≤ a.score) := by
  induction l with
  | nil => exact List.pairwise_singleton _ x
  | cons y ys ih =>
      rw [List.pairwise_cons] at h
      obtain ⟨hy, hys⟩ := h
      rw [insertScored]
      split
      · next hlt =>
          refine List.Pairwise.cons ?_ (List.Pairwise.cons hy hys)
          intro z hz
          rcases List.mem_cons.mp hz with rfl | hz'
          · exact le_of_lt hlt
          · exact (hy z hz').trans (le_of_lt hlt)
      · next hge =>
          refine List.Pairwise.cons ?_ (ih hys)
          intro z hz
          rcases List.mem_cons.mp ((perm_insertScored x ys).mem_iff.mp hz) with rfl | hz'
          · exact le_of_not_lt hge
          · exact hy z hz'

theorem perm_sortAux (l acc : List ScoredTrack) :
    List.Perm (l.foldl (fun a x => insertScored x a) acc) (acc ++ l) := by
  induction l generalizing acc with
  | nil => simp
  | cons x l ih =>
      rw [List.foldl_cons]
      refine (ih (insertScored x acc)).trans ?_
      refine (((perm_insertScored x acc).append_right l).trans ?_)
      exact List.perm_middle.symm

theorem perm_sortByScoreDesc (l : List ScoredTrack) : List.Perm (sortByScoreDesc l) l :=
  perm_sortAux l []

theorem sortedDesc_sortAux (l : List ScoredTrack) (acc : List ScoredTrack)
    (hacc : acc.Pairwise (fun a b => b.score ≤ a.score)) :
    (l.foldl (fun a x => insertScored x a) acc).Pairwise (fun a b => b.score ≤ a.score) := by
  induction l generalizing acc with
  | nil => exact hacc
  | cons x l ih => exact ih _ (sortedDesc_insertScored hacc)

theorem sortedDesc_sortByScoreDesc (l : List ScoredTrack) :
    (sortByScoreDesc l).Pairwise (fun a b => b.score ≤ a.score) :=
  sortedDesc_sortAux l [] (List.Pairwise.nil)

theorem filter_insertScored_ne (x : ScoredTrack) (l : List ScoredTrack) (s : ℚ)
    (h : ¬ x.score = s) :
    (insertScored x l).filter (fun t => t.score = s)
      = l.filter (fun t => t.score = s) := by
  induction l with
  | nil => simp [insertScored, h]
  | cons y ys ih =>
      rw [insertScored]
      split
      · simp [List.filter_cons, h]
      · rw [List.filter_cons, List.filter_cons, ih]

theorem filter_insertScored_eq (x : ScoredTrack) (l : List ScoredTrack)
    (hl : l.Pairwise (fun a b => b.score ≤ a.score)) :
    (insertScored x l).filter (fun t => t.score = x.score)
      = l.filter (fun t => t.score = x.score) ++ [x] := by
  induction l with
  | nil => simp [insertScored]
  | cons y ys ih =>
      rw [List.pairwise_cons] at hl
      obtain ⟨hy, hys⟩ := hl
      rw [insertScored]
      split
      · next hlt =>
          have hnil : (y :: ys).filter (fun t => t.score = x.score) = [] := by
            rw [List.filter_eq_nil_iff]
            intro z hz
            rcases List.mem_cons.mp hz with rfl | hz'
            · simp
              exact ne_of_lt hlt
            · simp
              exact ne_of_lt (lt_of_le_of_lt (hy z hz') hlt)
          rw [List.filter_cons_of_pos (by simp), hnil]
          rfl
      · rw [List.filter_cons, List.filter_cons, ih hys]
        split
        · rfl
        · rfl

theorem filter_sortAux (l acc : List ScoredTrack) (s : ℚ) (hacc : acc.Pairwise (fun a b => b.score ≤ a.score)) :
    (l.foldl (fun a x => insertScored x a) acc).filter (fun t => t.score = s)
      = acc.filter (fun t => t.score = s) ++ l.filter (fun t => t.score = s) := by
  induction l generalizing acc with
  | nil => simp
  | cons x l ih =>
      rw [List.foldl_cons, ih _ (sortedDesc_insertScored hacc), List.filter_cons]
      by_cases hx : x.score = s
      · rw [if_pos (by simpa using hx)]
        subst hx
        rw [filter_insertScored_eq x acc hacc, List.append_assoc, List.singleton_append]
      · rw [if_neg (by simpa using hx), filter_insertScored_ne x acc s hx]

theorem filter_sortByScoreDesc (l : List ScoredTrack) (s : ℚ) :
    (sortByScoreDesc l).filter (fun t => t.score = s)
      = l.filter (fun t => t.score = s) :=
  filter_sortAux l [] s List.Pairwise.nil

/-! ## Bridges from the aggregation fold to the spec formulas -/

theorem songPlayCounts_eq_frequency (l : List ListenEvent) (k : TrackKey) :
    (aggregate l).songPlayCounts k = frequency l k := by
  rw [aggregate, songPlayCounts_foldl, frequency]
  simp [initState]

theorem artistTotalPlays_eq (l : List ListenEvent) (a : String) :
    (aggregate l).artistTotalPlays a = artistPlays l a := by
  rw [aggregate, artistTotalPlays_foldl, artistPlays]
  simp [initState]

theorem albumTotalPlays_eq (l : List ListenEvent) (ak : AlbumKey) :
    (aggregate l).albumTotalPlays ak = albumPlays l ak := by
  rw [aggregate, albumTotalPlays_foldl, albumPlays]
  simp [initState]

theorem nodup_songPlayDays (l : List ListenEvent) (k : TrackKey) :
    ((aggregate l).songPlayDays k).Nodup := by
  rw [aggregate]
  exact nodup_songPlayDays_foldl l initState k (by simp [initState])

theorem mem_songPlayDays (l : List ListenEvent) (k : TrackKey) (d : String) :
    d ∈ (aggregate l).songPlayDays k ↔ ∃ e ∈ l, trackKey e = k ∧ e.day = d := by
  rw [aggregate, mem_songPlayDays_foldl]
  simp [initState]

theorem songPlayDays_length_eq_consistency (l : List ListenEvent) (k : TrackKey) :
    ((aggregate l).songPlayDays k).length = consistency l k := by
  rw [consistency]
  apply List.Perm.length_eq
  apply (List.perm_ext_iff_of_nodup (nodup_songPlayDays l k) (List.nodup_dedup _)).mpr
  intro d
  rw [List.mem_dedup, mem_songPlayDays]
  simp only [List.mem_map, List.mem_filter]
  constructor
  · rintro ⟨e, he, hk, hd⟩
    exact ⟨e, ⟨he, by simpa using hk⟩, hd⟩
  · rintro ⟨e, ⟨he, hk⟩, hd⟩
    exact ⟨e, he, by simpa using hk, hd⟩

theorem consistency_le_frequency (l : List ListenEvent) (k : TrackKey) :
    consistency l k ≤ frequency l k := by
  rw [consistency, frequency, List.countP_eq_length_filter]
  calc ((((l.filter (fun e => trackKey e = k))).map (fun e => e.day)).dedup).length
      ≤ (((l.filter (fun e => trackKey e = k))).map (fun e => e.day)).length :=
        (List.dedup_sublist _).length_le
    _ = ((l.filter (fun e => trackKey e = k))).length := List.length_map _ _

theorem consistency_eq_frequency_of_distinct_days (l : List ListenEvent) (k : TrackKey)
    (h : (l.filter (fun e => trackKey e = k)).Pairwise (fun a b => a.day ≠ b.day)) :
    consistency l k = frequency l k := by
  have hnd : (((l.filter (fun e => trackKey e = k))).map (fun e => e.day)).Nodup :=
    List.pairwise_map.mpr h
  rw [consistency, frequency, List.countP_eq_length_filter,
    List.dedup_eq_self.mpr hnd, List.length_map]

/-! ## Keys of the output -/

theorem map_keyOf_songScores (l : List ListenEvent) (w : Weights) :
    (songScores l w).map keyOf = (aggregate l).songKeysInOrder := by
  rw [songScores, List.map_map]
  have h : keyOf ∘ scoredOf l w = id := funext fun k => rfl
  rw [h, List.map_id]

theorem keys_perm_dedup (l : List ListenEvent) :
    List.Perm (aggregate l).songKeysInOrder ((l.map trackKey).dedup) := by
  rw [songKeysInOrder_eq_firstOccur]
  apply (List.perm_ext_iff_of_nodup (nodup_firstOccur _) (List.nodup_dedup _)).mpr
  intro a
  rw [mem_firstOccur, List.mem_dedup]

theorem mem_keys_iff (l : List ListenEvent) (k : TrackKey) :
    k ∈ (aggregate l).songKeysInOrder ↔ ∃ e ∈ l, trackKey e = k := by
  rw [songKeysInOrder_eq_firstOccur, mem_firstOccur, List.mem_map]

theorem mem_calculate_scores_iff (l : List ListenEvent) (w : Weights) (t : ScoredTrack) :
    t ∈ calculate_scores l w
      ↔ ∃ k ∈ (aggregate l).songKeysInOrder, t = scoredOf l w k := by
  rw [calculate_scores, (perm_sortByScoreDesc _).mem_iff, songScores, List.mem_map]
  constructor
  · rintro ⟨k, hk, rfl⟩
    exact ⟨k, hk, rfl⟩
  · rintro ⟨k, hk, rfl⟩
    exact ⟨k, hk, rfl⟩

theorem length_calculate_scores (l : List ListenEvent) (w : Weights) :
    (calculate_scores l w).length = distinctTrackKeys l := by
  rw [distinctTrackKeys, calculate_scores, (perm_sortByScoreDesc _).length_eq,
    songScores, List.length_map]
  exact (keys_perm_dedup l).length_eq

/-! ## The representative album -/

theorem find?_eq_some_decomp {α : Type} (p : α → Bool) :
    ∀ (l : List α) (a : α), l.find? p = some a →
      ∃ pre post, l = pre ++ a :: post ∧ p a = true ∧ ∀ b ∈ pre, ¬ p b = true
  | [], a, h => by simp at h
  | x :: xs, a, h => by
      by_cases hx : p x
      · rw [List.find?_cons_of_pos _ hx] at h
        obtain rfl : x = a := by injection h
        exact ⟨[], xs, rfl, hx, by simp⟩
      · rw [List.find?_cons_of_neg _ hx] at h
        obtain ⟨pre, post, heq, hpa, hpre⟩ := find?_eq_some_decomp p xs a h
        refine ⟨x :: pre, post, by rw [heq]; rfl, hpa, ?_⟩
        intro b hb
        rcases List.mem_cons.mp hb with rfl | hb'
        · exact hx
        · exact hpre b hb'

theorem representativeAlbum_of_mem {l : List ListenEvent} {k : TrackKey}
    (h : ∃ e ∈ l, trackKey e = k) :
    ∃ e, l.find? (fun x => trackKey x = k) = some e
      ∧ representativeAlbum l k = some e.album := by
  have hs : (l.find? (fun x => trackKey x = k)).isSome :=
    List.find?_isSome.mpr (by simpa using h)
  obtain ⟨e, he⟩ := Option.isSome_iff_exists.mp hs
  exact ⟨e, he, by rw [representativeAlbum, he]; rfl⟩

theorem albumAffinityUsed_eq (l : List ListenEvent) (k : TrackKey) (alb : String)
    (h : representativeAlbum l k = some alb) :
    albumAffinityUsed l k = albumPlays l (k.1, alb) := by
  rw [albumAffinityUsed, h]
  exact albumTotalPlays_eq l (k.1, alb)

/-! ## The score formula -/

theorem score_scoredOf (l : List ListenEvent) (w : Weights) (k : TrackKey) :
    (scoredOf l w k).score
      = round2 ((frequency l k : ℚ) * w.FREQUENCY
          + (consistency l k : ℚ) * w.CONSISTENCY
          + (artistPlays l k.1 : ℚ) * w.ARTIST_AFFINITY
          + (albumAffinityUsed l k : ℚ) * w.ALBUM_AFFINITY) := by
  rw [scoredOf]
  rw [songPlayCounts_eq_frequency, songPlayDays_length_eq_consistency, artistTotalPlays_eq]

/-! ## The Normalizer -/

theorem processOne_eq_none_of_bad (dayOf : ℕ → String) (t : RawTrack)
    (h : t.nowplaying = some "true" ∨ t.name = none ∨ t.artistText = none
        ∨ t.albumText = none ∨ t.dateUts = none) :
    processOne dayOf t = none := by
  rw [processOne]
  by_cases hnp : t.nowplaying = some "true"
  · rw [if_pos hnp]
  · rw [if_neg hnp]
    rcases h with h | h | h | h | h
    · exact absurd h hnp
    all_goals
      split
      · simp_all
      · rfl

theorem processOne_eq_none_of_empty (dayOf : ℕ → String) (t : RawTrack)
    (s a alb : String) (uts : ℕ)
    (hn : t.name = some s) (ha : t.artistText = some a) (hal : t.albumText = some alb)
    (hu : t.dateUts = some uts) (h : s = "" ∨ a = "" ∨ alb = "") :
    processOne dayOf t = none := by
  rw [processOne]
  by_cases hnp : t.nowplaying = some "true"
  · rw [if_pos hnp]
  · rw [if_neg hnp]
    split
    · next s' a' alb' uts' =>
        rw [if_neg]
        simp_all
        tauto
    · rfl

theorem process_scrobbles_drop (dayOf : ℕ → String) (pre post : List RawTrack)
    (t : RawTrack) (h : processOne dayOf t = none) :
    process_scrobbles dayOf (pre ++ t :: post) = process_scrobbles dayOf (pre ++ post) := by
  rw [process_scrobbles, process_scrobbles, List.filterMap_append, List.filterMap_append,
    List.filterMap_cons_none h]

/-! ## Presentation -/

theorem calculate_scores_nil (w : Weights) : calculate_scores [] w = [] := rfl

theorem recommendationLines_nil (fmt : ℕ → ScoredTrack → String) (n : ℕ) :
    recommendationLines fmt [] n = [noHistoryMessage] := rfl

theorem mainRun_missing_cred (apiKey username : Option String) (dayOf : ℕ → String)
    (fmt : ℕ → ScoredTrack → String) (raw : List RawTrack) (w : Weights) (n : ℕ)
    (h : (missingCred apiKey || missingCred username) = true) :
    mainRun apiKey username dayOf fmt raw w n
      = { output := [configErrorLine1, configErrorLine2]
          fetchAttempted := false
          exitCode := 0 } := by
  rw [mainRun, if_pos h]

/-! ## The spec worked example, computed -/

unseal Rat.mul Rat.inv Rat.add Rat.sub in
theorem calculate_scores_example :
    calculate_scores exampleListens WEIGHTS = [exampleTrack] := by decide

theorem exampleTrack_mem : exampleTrack ∈ calculate_scores exampleListens WEIGHTS := by
  rw [calculate_scores_example]
  exact List.mem_singleton.mpr rfl

/-! ## Claims -/

/-- C1: every score produced by `calculate_scores` equals
`frequency·W_FREQUENCY + consistency·W_CONSISTENCY +
artistTotalPlays·W_ARTIST_AFFINITY + albumTotalPlays·W_ALBUM_AFFINITY`
(the album term taken at the track's representative album), rounded to two
decimal places; and on the spec's example — 3 plays of one track on 2 distinct
days, all from one album, default weights — the resulting score is 8.4. -/
theorem claim_C1 :
    (∀ (l : List ListenEvent) (w : Weights) (t : ScoredTrack),
      t ∈ calculate_scores l w →
      ∃ alb, representativeAlbum l (t.artist, t.song) = some alb
        ∧ t.score = round2 ((frequency l (t.artist, t.song) : ℚ) * w.FREQUENCY
            + (consistency l (t.artist, t.song) : ℚ) * w.CONSISTENCY
            + (artistPlays l t.artist : ℚ) * w.ARTIST_AFFINITY
            + (albumPlays l (t.artist, alb) : ℚ) * w.ALBUM_AFFINITY))
    ∧ calculate_scores exampleListens WEIGHTS = [exampleTrack]
    ∧ exampleTrack.score = 42/5 := by
  refine ⟨?_, calculate_scores_example, rfl⟩
  intro l w t ht
  obtain ⟨k, hk, rfl⟩ := (mem_calculate_scores_iff l w t).mp ht
  obtain ⟨e, _hfind, hrep⟩ := representativeAlbum_of_mem ((mem_keys_iff l k).mp hk)
  refine ⟨e.album, hrep, ?_⟩
  rw [score_scoredOf, albumAffinityUsed_eq l k e.album hrep]
  rfl

/-- Witness for C1 at the spec's worked example. -/
theorem claim_C1_witness :
    exampleTrack ∈ calculate_scores exampleListens WEIGHTS
    ∧ ∃ alb,
        representativeAlbum exampleListens (exampleTrack.artist, exampleTrack.song)
          = some alb
        ∧ exampleTrack.score
          = round2 ((frequency exampleListens (exampleTrack.artist, exampleTrack.song) : ℚ)
                * WEIGHTS.FREQUENCY
              + (consistency exampleListens (exampleTrack.artist, exampleTrack.song) : ℚ)
                * WEIGHTS.CONSISTENCY
              + (artistPlays exampleListens exampleTrack.artist : ℚ)
                * WEIGHTS.ARTIST_AFFINITY
              + (albumPlays exampleListens (exampleTrack.artist, alb) : ℚ)
                * WEIGHTS.ALBUM_AFFINITY) :=
  ⟨exampleTrack_mem, claim_C1.1 exampleListens WEIGHTS exampleTrack exampleTrack_mem⟩

/-- C2: `calculate_scores` yields exactly one `ScoredTrack` per distinct
`(artist, song)` pair of the input (their keys are a permutation of the
deduplicated input keys), the output length equals the number of distinct
TrackKeys, and the empty input yields the empty output. -/
theorem claim_C2 :
    ∀ (l : List ListenEvent) (w : Weights),
      List.Perm ((calculate_scores l w).map keyOf) ((l.map trackKey).dedup)
      ∧ (calculate_scores l w).length = distinctTrackKeys l
      ∧ calculate_scores [] w = [] := by
  intro l w
  refine ⟨?_, length_calculate_scores l w, rfl⟩
  have h1 : List.Perm ((calculate_scores l w).map keyOf) ((songScores l w).map keyOf) :=
    (perm_sortByScoreDesc (songScores l w)).map keyOf
  rw [map_keyOf_songScores] at h1
  exact h1.trans (keys_perm_dedup l)

/-- C3: the frequency used by `calculate_scores` is the exact count of events
of the track, the consistency is the number of distinct days among them,
consistency ≤ frequency always, with equality when no two listens of the
track share a day. -/
theorem claim_C3 :
    ∀ (l : List ListenEvent) (k : TrackKey),
      (aggregate l).songPlayCounts k = frequency l k
      ∧ ((aggregate l).songPlayDays k).length = consistency l k
      ∧ consistency l k ≤ frequency l k
      ∧ ((l.filter (fun e => trackKey e = k)).Pairwise (fun a b => a.day ≠ b.day) →
          consistency l k = frequency l k) := by
  intro l k
  exact ⟨songPlayCounts_eq_frequency l k, songPlayDays_length_eq_consistency l k,
    consistency_le_frequency l k, consistency_eq_frequency_of_distinct_days l k⟩

/-- Witness for C3: on the worked example frequency is 3 and consistency 2;
on the two-distinct-day input the distinct-day hypothesis holds and
consistency equals frequency. -/
theorem claim_C3_witness :
    (aggregate exampleListens).songPlayCounts ("Artist A", "Song X")
      = frequency exampleListens ("Artist A", "Song X")
    ∧ consistency exampleListens ("Artist A", "Song X")
      ≤ frequency exampleListens ("Artist A", "Song X")
    ∧ frequency exampleListens ("Artist A", "Song X") = 3
    ∧ consistency exampleListens ("Artist A", "Song X") = 2
    ∧ consistency exampleListensDistinct ("Artist A", "Song X")
      = frequency exampleListensDistinct ("Artist A", "Song X") :=
  ⟨(claim_C3 exampleListens ("Artist A", "Song X")).1,
    (claim_C3 exampleListens ("Artist A", "Song X")).2.2.1,
    by decide, by decide,
    (claim_C3 exampleListensDistinct ("Artist A", "Song X")).2.2.2 (by decide)⟩

/-- C4: the output of `calculate_scores` is non-increasing in score between
adjacent entries; entries of any given score keep the pre-sort order, which
itself lists tracks by first occurrence of their TrackKey in the input
(stable tie-break); and the function is deterministic. -/
theorem claim_C4 :
    ∀ (l : List ListenEvent) (w : Weights),
      List.Chain' (fun a b => b.score ≤ a.score) (calculate_scores l w)
      ∧ (∀ s : ℚ, (calculate_scores l w).filter (fun t => t.score = s)
            = (songScores l w).filter (fun t => t.score = s))
      ∧ (songScores l w).map keyOf = firstOccur (l.map trackKey)
      ∧ (∀ (l' : List ListenEvent) (w' : Weights), l = l' → w = w' →
          calculate_scores l w = calculate_scores l' w') := by
  intro l w
  refine ⟨(sortedDesc_sortByScoreDesc (songScores l w)).chain', ?_, ?_, ?_⟩
  · intro s
    exact filter_sortByScoreDesc (songScores l w) s
  · rw [map_keyOf_songScores, songKeysInOrder_eq_firstOccur]
  · rintro l' w' rfl rfl
    rfl

/-- Witness for C4's determinism hypothesis at a concrete input. -/
theorem claim_C4_witness :
    calculate_scores exampleListens WEIGHTS = calculate_scores exampleListens WEIGHTS :=
  (claim_C4 exampleListens WEIGHTS).2.2.2 exampleListens WEIGHTS rfl rfl

/-- C5: the ranked listing `ranked[:n]` has `min M n` entries for a list of
`M` scored tracks: all of them when `M < n`, exactly `n` otherwise; through
the pipeline `M` is the number of distinct TrackKeys of the input. -/
theorem claim_C5 :
    ∀ (ranked : List ScoredTrack) (n : ℕ),
      (topN ranked n).length = min ranked.length n
      ∧ (ranked.length < n → (topN ranked n).length = ranked.length)
      ∧ (n ≤ ranked.length → (topN ranked n).length = n)
      ∧ (∀ (l : List ListenEvent) (w : Weights),
          (topN (calculate_scores l w) n).length = min (distinctTrackKeys l) n) := by
  intro ranked n
  have hlen : (topN ranked n).length = min ranked.length n := by
    rw [topN, List.length_take, Nat.min_comm]
  refine ⟨hlen, ?_, ?_, ?_⟩
  · intro h
    rw [hlen]
    omega
  · intro h
    rw [hlen]
    omega
  · intro l w
    rw [topN, List.length_take, length_calculate_scores, Nat.min_comm]

/-- Witness for C5: one distinct track, `n = 25` and `n = 0`. -/
theorem claim_C5_witness :
    (topN [exampleTrack] 25).length = 1 ∧ (topN [exampleTrack] 0).length = 0 :=
  ⟨(claim_C5 [exampleTrack] 25).2.1 (by decide),
    (claim_C5 [exampleTrack] 0).2.2.1 (by decide)⟩

/-- C6: each output track's representative album is the album of the first
input event with that TrackKey (no earlier event matches), and the album
affinity used in its score is the total number of input events sharing that
`(artist, album)` key. -/
theorem claim_C6 :
    ∀ (l : List ListenEvent) (w : Weights) (t : ScoredTrack),
      t ∈ calculate_scores l w →
      ∃ pre e post, l = pre ++ e :: post
        ∧ trackKey e = (t.artist, t.song)
        ∧ (∀ e' ∈ pre, trackKey e' ≠ (t.artist, t.song))
        ∧ representativeAlbum l (t.artist, t.song) = some e.album
        ∧ albumAffinityUsed l (t.artist, t.song) = albumPlays l (t.artist, e.album) := by
  intro l w t ht
  obtain ⟨k, hk, rfl⟩ := (mem_calculate_scores_iff l w t).mp ht
  obtain ⟨e, hfind, hrep⟩ := representativeAlbum_of_mem ((mem_keys_iff l k).mp hk)
  obtain ⟨pre, post, heq, hpa, hpre⟩ :=
    find?_eq_some_decomp (fun x => trackKey x = k) l e hfind
  refine ⟨pre, e, post, heq, by simpa using hpa, ?_, hrep, ?_⟩
  · intro e' he'
    have := hpre e' he'
    simpa using this
  · exact albumAffinityUsed_eq l k e.album hrep

/-- Witness for C6 at the spec's worked example. -/
theorem claim_C6_witness :
    ∃ pre e post, exampleListens = pre ++ e :: post
      ∧ trackKey e = (exampleTrack.artist, exampleTrack.song)
      ∧ (∀ e' ∈ pre, trackKey e' ≠ (exampleTrack.artist, exampleTrack.song))
      ∧ representativeAlbum exampleListens (exampleTrack.artist, exampleTrack.song)
          = some e.album
      ∧ albumAffinityUsed exampleListens (exampleTrack.artist, exampleTrack.song)
          = albumPlays exampleListens (exampleTrack.artist, e.album) :=
  claim_C6 exampleListens WEIGHTS exampleTrack exampleTrack_mem

/-- C7: a raw record flagged as now-playing or missing the song name, artist,
album or timestamp yields no ListenEvent, and removing it from the input
leaves the normalized list — hence every other track's statistics — exactly
unchanged. -/
theorem claim_C7 :
    ∀ (dayOf : ℕ → String) (pre post : List RawTrack) (t : RawTrack),
      (t.nowplaying = some "true" ∨ t.name = none ∨ t.artistText = none
        ∨ t.albumText = none ∨ t.dateUts = none) →
      process_scrobbles dayOf (pre ++ t :: post) = process_scrobbles dayOf (pre ++ post)
      ∧ (∀ w : Weights,
          calculate_scores (process_scrobbles dayOf (pre ++ t :: post)) w
            = calculate_scores (process_scrobbles dayOf (pre ++ post)) w) := by
  intro dayOf pre post t h
  have hdrop := process_scrobbles_drop dayOf pre post t (processOne_eq_none_of_bad dayOf t h)
  exact ⟨hdrop, fun w => by rw [hdrop]⟩

/-- Witness for C7: dropping a record without an album field. -/
theorem claim_C7_witness :
    process_scrobbles (fun _ => "2024-01-01") ([goodRaw] ++ badRaw :: [])
      = process_scrobbles (fun _ => "2024-01-01") ([goodRaw] ++ [])
    ∧ calculate_scores
        (process_scrobbles (fun _ => "2024-01-01") ([goodRaw] ++ badRaw :: [])) WEIGHTS
      = calculate_scores
        (process_scrobbles (fun _ => "2024-01-01") ([goodRaw] ++ [])) WEIGHTS :=
  ⟨(claim_C7 (fun _ => "2024-01-01") [goodRaw] [] badRaw
      (Or.inr (Or.inr (Or.inr (Or.inl rfl))))).1,
    (claim_C7 (fun _ => "2024-01-01") [goodRaw] [] badRaw
      (Or.inr (Or.inr (Or.inr (Or.inl rfl))))).2 WEIGHTS⟩

/-- C8: if the Normalizer yields zero ListenEvents, the scorer yields zero
ScoredTracks and the recommendation section is the single no-history line —
no ranked entries. -/
theorem claim_C8 :
    ∀ (dayOf : ℕ → String) (fmt : ℕ → ScoredTrack → String)
      (raw : List RawTrack) (w : Weights) (n : ℕ),
      process_scrobbles dayOf raw = [] →
      calculate_scores (process_scrobbles dayOf raw) w = []
      ∧ recommendationLines fmt (calculate_scores (process_scrobbles dayOf raw) w) n
          = [noHistoryMessage] := by
  intro dayOf fmt raw w n h
  rw [h]
  exact ⟨rfl, rfl⟩

/-- Witness for C8: a run whose only raw record is dropped. -/
theorem claim_C8_witness :
    calculate_scores
        (process_scrobbles (fun _ => "2024-01-01") [badRaw]) WEIGHTS = []
    ∧ recommendationLines (fun _ _ => "")
        (calculate_scores (process_scrobbles (fun _ => "2024-01-01") [badRaw]) WEIGHTS) 25
      = [noHistoryMessage] :=
  claim_C8 (fun _ => "2024-01-01") (fun _ _ => "") [badRaw] WEIGHTS 25 (by decide)

/-- C9 counterexample: with both credentials absent the run's exit status is
0, not the non-zero outcome the claim asserts (main prints the error and
returns normally). -/
theorem claim_C9_counterexample :
    ¬ ((mainRun none none (fun _ => "2024-01-01") (fun _ _ => "") [] WEIGHTS 25).exitCode
        ≠ 0) :=
  fun h => h rfl

/-- C9 (amended): if the API key or username is absent (or empty), the run
reports the configuration error, attempts no network activity and produces
no partial output — but the process exits with status 0, since `main`
returns normally instead of signalling failure. -/
theorem claim_C9_amended :
    ∀ (apiKey username : Option String) (dayOf : ℕ → String)
      (fmt : ℕ → ScoredTrack → String) (raw : List RawTrack) (w : Weights) (n : ℕ),
      (missingCred apiKey || missingCred username) = true →
      mainRun apiKey username dayOf fmt raw w n
        = { output := [configErrorLine1, configErrorLine2]
            fetchAttempted := false
            exitCode := 0 } := by
  intro apiKey username dayOf fmt raw w n h
  exact mainRun_missing_cred apiKey username dayOf fmt raw w n h

/-- Witness for C9 (amended): both credentials absent. -/
theorem claim_C9_witness :
    mainRun none none (fun _ => "2024-01-01") (fun _ _ => "") [] WEIGHTS 25
      = { output := [configErrorLine1, configErrorLine2]
          fetchAttempted := false
          exitCode := 0 } :=
  claim_C9_amended none none (fun _ => "2024-01-01") (fun _ _ => "") [] WEIGHTS 25 rfl

/-- C10: a raw record with all required keys present but an empty song,
artist or album string yields no ListenEvent — removing it leaves the
normalized list unchanged, exactly like a record with a missing field. -/
theorem claim_C10 :
    ∀ (dayOf : ℕ → String) (pre post : List RawTrack) (t : RawTrack)
      (s a alb : String) (uts : ℕ),
      t.name = some s → t.artistText = some a → t.albumText = some alb →
      t.dateUts = some uts →
      (s = "" ∨ a = "" ∨ alb = "") →
      process_scrobbles dayOf (pre ++ t :: post) = process_scrobbles dayOf (pre ++ post) := by
  intro dayOf pre post t s a alb uts hn ha hal hu h
  exact process_scrobbles_drop dayOf pre post t
    (processOne_eq_none_of_empty dayOf t s a alb uts hn ha hal hu h)

/-- Witness for C10: a record whose album field is the empty string. -/
theorem claim_C10_witness :
    process_scrobbles (fun _ => "2024-01-01") ([goodRaw] ++ emptyAlbumRaw :: [])
      = process_scrobbles (fun _ => "2024-01-01") ([goodRaw] ++ []) :=
  claim_C10 (fun _ => "2024-01-01") [goodRaw] [] emptyAlbumRaw
    "Song Z" "Artist C" "" 1704067200 rfl rfl rfl rfl (Or.inr (Or.inr rfl))

end LastfmRecommender
